import Mathlib

/-
Verification of the batch parameter-sweep dispatch script
(PBS job script, `src/unnamed/part_000`).

The script reads the node count from the environment
(`NNODES=$(cat $PBS_NODEFILE | uniq | wc -l)`), sets `NCPUS=32`, and for
each node index `i` in `0 .. NNODES-1` assigns the parameter list
`{1..32}` when `i < 1` and `{33..64}` otherwise, launching on each node
(via `pbsdsh -n $((NCPUS*i)) ... &`) a GNU-parallel invocation
`parallel --delay 5 --retries 3 --load 100% ... ::: $PARAMF`,
and finally executes `wait;` with no operands.

The partition logic and the fan-out structure are embedded directly from
the script.  The behaviour of the external `parallel` utility (retry
budget, load-based admission, bounded concurrency) is not part of the
repository's source; those parts are modelled from the specification's
words, as marked in the corresponding doc comments.
-/

namespace SweepDispatch

/-- `NCPUS=32` from the script. -/
def NCPUS : Nat := 32

/-- `--retries 3` from the parallel invocation in the script. -/
def parallelRetries : Nat := 3

/-- `--delay 5` from the parallel invocation in the script. -/
def parallelDelay : Nat := 5

/-- `--load 100%` from the parallel invocation in the script. -/
def parallelLoadThreshold : Nat := 100

/-- The parameter list assigned to node index `i`:
`if [ $i -lt 1 ] then PARAMF="{1..32}" else PARAMF="{33..64}"`.
`List.range' a n` is the list `[a, a+1, ..., a+n-1]`, so
`List.range' 1 32 = [1..32]` and `List.range' 33 32 = [33..64]`. -/
def PARAMF (i : Nat) : List Nat :=
  if i < 1 then List.range' 1 32 else List.range' 33 32

/-- One per-node sub-dispatcher launched by the script:
`pbsdsh -n $((NCPUS*i))` targets virtual CPU `NCPUS*i`, and the
sub-dispatcher sweeps the parameter list `PARAMF i`. -/
structure SubDispatch where
  cpuOffset : Nat
  params : List Nat
deriving DecidableEq

/-- The loop `for i in $(seq 0 $((NNODES-1)))`: the list of per-node
sub-dispatchers launched for a given node count. -/
def dispatch (nnodes : Nat) : List SubDispatch :=
  (List.range nnodes).map (fun i => ⟨NCPUS * i, PARAMF i⟩)

/-- The full declared parameter range `[1..64]` (union of the two
hardcoded brace expansions). -/
def fullRange : List Nat := List.range' 1 64

/-- The partitions are pairwise disjoint: no value of one sub-dispatcher's
parameter list appears in another's. -/
def disjointParts (l : List SubDispatch) : Prop :=
  l.Pairwise (fun a b => ∀ v ∈ a.params, v ∉ b.params)

/-- The concatenation of all parameter lists is the full range exactly
once: it is a permutation of `[1..64]` (no value omitted, none repeated). -/
def coversExactlyOnce (l : List SubDispatch) : Prop :=
  (l.flatMap (fun s => s.params)).Perm fullRange

/-- A correct partition in the sense of the specification: pairwise
disjoint and covering the full range exactly once. -/
def partitionCorrect (l : List SubDispatch) : Prop :=
  disjointParts l ∧ coversExactlyOnce l

instance (l : List SubDispatch) : Decidable (disjointParts l) := by
  unfold disjointParts
  infer_instance

instance (l : List SubDispatch) : Decidable (coversExactlyOnce l) := by
  unfold coversExactlyOnce
  exact List.decidablePerm _ _

instance (l : List SubDispatch) : Decidable (partitionCorrect l) := by
  unfold partitionCorrect
  infer_instance

/-- Per-node count of work units for a given parameter value: the total
number of times value `v` appears across all parameter lists dispatched
for `nnodes` nodes. -/
def dispatchCount (nnodes v : Nat) : Nat :=
  ((dispatch nnodes).map (fun s => s.params.count v)).sum

/-- Each node's parameter list has exactly 32 values, so the concatenated
dispatch for `nnodes` nodes has `32 * nnodes` values. -/
lemma length_flatMap_dispatch (nnodes : Nat) :
    ((dispatch nnodes).flatMap (fun s => s.params)).length = 32 * nnodes := by
  induction nnodes with
  | zero => rfl
  | succ n ih =>
    have hlen : (PARAMF n).length = 32 := by
      unfold PARAMF
      split <;> simp
    calc ((dispatch (n + 1)).flatMap (fun s => s.params)).length
        = ((dispatch n).flatMap (fun s => s.params)).length + (PARAMF n).length := by
          simp [dispatch, List.range_succ]
      _ = 32 * n + 32 := by rw [ih, hlen]
      _ = 32 * (n + 1) := by ring

/-- The hardcoded boundaries yield a correct partition of `[1..64]` if and
only if the node count is exactly 2. -/
lemma partitionCorrect_iff (nnodes : Nat) :
    partitionCorrect (dispatch nnodes) ↔ nnodes = 2 := by
  constructor
  · intro hpc
    have hc : coversExactlyOnce (dispatch nnodes) := hpc.2
    have hl := hc.length_eq
    rw [length_flatMap_dispatch] at hl
    have h64 : fullRange.length = 64 := by decide
    omega
  · rintro rfl
    decide

/-- C1: the claim states that for every valid node count the computed
partition is pairwise disjoint and covers `[1..64]` exactly once.  This is
false at the concrete node count 3: node 1 and node 2 are both assigned
`[33..64]`, so the partitions overlap and values are covered twice. -/
theorem c1_counterexample : ¬ partitionCorrect (dispatch 3) := by
  decide

/-- C1 (amended): the partition computed by the dispatcher is pairwise
disjoint with union exactly `[1..64]` precisely when the node count is 2
(the hardcoded-boundary assumption); for every other node count the
hardcoded boundaries fail to partition the range. -/
theorem c1_partition_correct_iff_two (nnodes : Nat) :
    partitionCorrect (dispatch nnodes) ↔ nnodes = 2 :=
  partitionCorrect_iff nnodes

/-- C2: with `N=64, M=2`, node 0 receives `[1..32]` (at CPU offset 0) and
node 1 receives `[33..64]` (at CPU offset `NCPUS=32`); both are contiguous
`List.range'` intervals, pairwise disjoint, and their union is `[1..64]`
exactly once. -/
theorem c2_two_node_partition :
    dispatch 2 = [⟨0, List.range' 1 32⟩, ⟨NCPUS, List.range' 33 32⟩] ∧
    partitionCorrect (dispatch 2) := by
  decide

/-- C6: the claim states that an unexpected node count is fatal at job
startup, with no partition computed and no dispatch.  This is false at the
concrete node count 3: the script still computes a partition for each of
the 3 nodes and proceeds, with two distinct sub-dispatchers both assigned
parameter value 40 (a silent mis-partition, not a failure). -/
theorem c6_counterexample :
    dispatch 3 ≠ [] ∧ (dispatch 3).length = 3 ∧
    (∃ s₁ ∈ dispatch 3, ∃ s₂ ∈ dispatch 3,
      s₁ ≠ s₂ ∧ 40 ∈ s₁.params ∧ 40 ∈ s₂.params) := by
  decide

/-- C6 (amended): for a node count that does not match the hardcoded
boundary assumption (any `nnodes ≠ 2`), the script does not fail: it still
computes one partition per node and proceeds, but the resulting assignment
is not a correct partition of `[1..64]` (silent mis-partitioning). -/
theorem c6_unexpected_node_count (nnodes : Nat) (h : nnodes ≠ 2) :
    (dispatch nnodes).length = nnodes ∧ ¬ partitionCorrect (dispatch nnodes) := by
  refine ⟨by simp [dispatch], fun hpc => h ?_⟩
  exact (partitionCorrect_iff nnodes).mp hpc

/-- Witness for C6 (amended) at the concrete node count 3. -/
theorem c6_unexpected_node_count_witness :
    (3 : Nat) ≠ 2 ∧ (dispatch 3).length = 3 ∧ ¬ partitionCorrect (dispatch 3) :=
  ⟨by decide,
   (c6_unexpected_node_count 3 (by decide)).1,
   (c6_unexpected_node_count 3 (by decide)).2⟩

/-- C9: when the computed node count is 1, the loop runs only for `i = 0`,
so exactly one sub-dispatcher is launched, its partition is `[1..32]`, and
no value of `[33..64]` is ever dispatched. -/
theorem c9_single_node :
    dispatch 1 = [⟨0, List.range' 1 32⟩] ∧
    ∀ v ∈ List.range' 33 32, v ∉ (dispatch 1).flatMap (fun s => s.params) := by
  decide

/-- For node indices `i ≥ 1` the script assigns the upper list `[33..64]`,
in which each value of `[33..64]` occurs exactly once. -/
lemma count_PARAMF_hi (i v : Nat) (hi : 1 ≤ i) (hv : v ∈ List.range' 33 32) :
    (PARAMF i).count v = 1 := by
  unfold PARAMF
  rw [if_neg (by omega)]
  exact List.count_eq_one_of_mem (List.nodup_range' _ _) hv

/-- Splitting off the last node of a dispatch. -/
lemma dispatchCount_succ (n v : Nat) :
    dispatchCount (n + 1) v = dispatchCount n v + (PARAMF n).count v := by
  simp [dispatchCount, dispatch, List.range_succ]

/-- Every value of the upper range `[33..64]` is dispatched `nnodes - 1`
times when `nnodes ≥ 2`. -/
lemma dispatchCount_hi (nnodes : Nat) (h : 2 ≤ nnodes) (v : Nat)
    (hv : v ∈ List.range' 33 32) : dispatchCount nnodes v = nnodes - 1 := by
  induction nnodes, h using Nat.le_induction with
  | base =>
    have hb : 33 ≤ v ∧ v < 65 := by
      have := List.mem_range'_1.mp hv
      omega
    have h0 : v ∉ List.range' 1 32 := by
      intro hmem
      have := List.mem_range'_1.mp hmem
      omega
    have h1 : (List.range' 33 32).count v = 1 :=
      List.count_eq_one_of_mem (List.nodup_range' _ _) hv
    have heq : dispatchCount 2 v =
        (List.range' 1 32).count v + ((List.range' 33 32).count v + 0) := rfl
    rw [heq, List.count_eq_zero_of_not_mem h0, h1]
  | succ n hn ih =>
    rw [dispatchCount_succ, ih, count_PARAMF_hi n v (by omega) hv]
    omega

/-- C10: for every node count `M ≥ 2`, node 0 is assigned exactly
`[1..32]` and every node with index `i ≥ 1` is assigned the identical
list `[33..64]`; consequently each value of `[33..64]` is dispatched
`M - 1` times (duplicate work units whenever `M > 2`). -/
theorem c10_duplicate_upper_range (nnodes : Nat) (h : 2 ≤ nnodes) :
    (dispatch nnodes)[0]? = some ⟨0, List.range' 1 32⟩ ∧
    (∀ i, 1 ≤ i → i < nnodes →
      (dispatch nnodes)[i]? = some ⟨NCPUS * i, List.range' 33 32⟩) ∧
    ∀ v ∈ List.range' 33 32, dispatchCount nnodes v = nnodes - 1 := by
  refine ⟨?_, ?_, fun v hv => dispatchCount_hi nnodes h v hv⟩
  · have h0 : (0 : Nat) < nnodes := by omega
    simp [dispatch, List.getElem?_map, List.getElem?_range, h0, PARAMF]
  · intro i h1 h2
    have hP : PARAMF i = List.range' 33 32 := by
      unfold PARAMF
      rw [if_neg (by omega)]
    simp [dispatch, List.getElem?_map, List.getElem?_range, h2, hP]

/-- Witness for C10 at the concrete node count 3: node 2 receives
`[33..64]` (already held by node 1), and value 40 is dispatched twice. -/
theorem c10_duplicate_upper_range_witness :
    (2 : Nat) ≤ 3 ∧
    (dispatch 3)[2]? = some ⟨NCPUS * 2, List.range' 33 32⟩ ∧
    dispatchCount 3 40 = 2 :=
  ⟨by decide,
   (c10_duplicate_upper_range 3 (by decide)).2.1 2 (by decide) (by decide),
   (c10_duplicate_upper_range 3 (by decide)).2.2 40 (by decide)⟩

/-- Outcome of one work unit: how many invocation attempts were made and
whether the unit finally succeeded. -/
structure UnitResult where
  attempts : Nat
  ok : Bool
deriving DecidableEq

/-- Modelled from the spec: the per-work-unit retry loop of the external
parallel tool (invoked by the script with `--retries 3`), which is not part
of the repository's source.  `o k` is the outcome of attempt `k` (`true` =
success); the unit is re-invoked until an attempt succeeds or the budget is
exhausted, and the number of attempts made is recorded. -/
def runUnit (o : Nat → Bool) : Nat → UnitResult
  | 0 => ⟨0, false⟩
  | b + 1 =>
    if o 0 then ⟨1, true⟩
    else
      let r := runUnit (fun k => o (k + 1)) b
      ⟨r.attempts + 1, r.ok⟩

/-- The retry loop never makes more attempts than the budget. -/
lemma runUnit_attempts_le (b : Nat) : ∀ o : Nat → Bool, (runUnit o b).attempts ≤ b := by
  induction b with
  | zero =>
    intro o
    simp [runUnit]
  | succ n ih =>
    intro o
    by_cases h : o 0
    · simp [runUnit, h]
    · have hn := ih (fun k => o (k + 1))
      simp only [runUnit, h, if_false]
      exact Nat.succ_le_succ hn

/-- C3: with the script's retry budget (`--retries 3`), no work unit is
invoked more than 3 times before reaching its final status; and a unit
whose first two attempts fail and whose third succeeds is reported as a
success with exactly 3 invocation attempts recorded. -/
theorem c3_retry_budget :
    (∀ o : Nat → Bool, (runUnit o parallelRetries).attempts ≤ parallelRetries) ∧
    runUnit (fun k => decide (2 ≤ k)) parallelRetries = ⟨3, true⟩ :=
  ⟨fun o => runUnit_attempts_le parallelRetries o, by decide⟩

/-- Modelled from the spec: one node's sweep, as run by the external
parallel tool: one work unit per parameter value of the node's list, each
with the script's retry budget.  `o p k` is the outcome of attempt `k` of
the unit for parameter `p`. -/
def runNode (o : Nat → Nat → Bool) (ps : List Nat) : List (Nat × UnitResult) :=
  ps.map (fun p => (p, runUnit (o p) parallelRetries))

/-- Modelled from the spec: the per-node sub-dispatcher's exit status
reports its failures — it is the number of work units that exhausted the
retry budget without succeeding. -/
def nodeExit (o : Nat → Nat → Bool) (ps : List Nat) : Nat :=
  (runNode o ps).countP (fun r => !r.2.ok)

/-- The script's final command `wait;`: bash's `wait` with no operands
blocks until every background job has terminated and then returns exit
status 0, regardless of the jobs' own exit statuses. -/
def waitNoOperands (_childStatuses : List Nat) : Nat := 0

/-- Result of the whole job: one result slot per launched sub-dispatcher
(`none` when the sub-dispatcher process could not be started), plus the
exit status of the top-level script. -/
structure JobResult where
  nodeResults : List (Option (List (Nat × UnitResult)))
  exitStatus : Nat
deriving DecidableEq

/-- The whole script: launch one backgrounded sub-dispatcher per node
(`pbsdsh ... &`), then `wait;`.  `startOk c` models whether the `pbsdsh`
process for the sub-dispatcher at CPU offset `c` could be started (a
sub-dispatcher that cannot start produces no results and a nonzero child
status, modelled as 255); `o c p k` is the outcome of attempt `k` of the
unit for parameter `p` on the node at CPU offset `c`.  The script's exit
status is that of the trailing `wait`. -/
def runScript (nnodes : Nat) (startOk : Nat → Bool) (o : Nat → Nat → Nat → Bool) :
    JobResult :=
  let subs := dispatch nnodes
  { nodeResults := subs.map (fun s =>
      if startOk s.cpuOffset then some (runNode (o s.cpuOffset) s.params) else none),
    exitStatus := waitNoOperands (subs.map (fun s =>
      if startOk s.cpuOffset then nodeExit (o s.cpuOffset) s.params else 255)) }

/-- C4: the claim states that when a work unit fails 3 times, the overall
job exit status reflects the failure.  This is false at a concrete input:
with 2 nodes, all sub-dispatchers starting, and the unit for parameter 1
failing on every attempt, that unit is reported as a permanent failure
after 3 attempts, yet the script's exit status is 0 (the trailing `wait`
discards the background jobs' statuses). -/
theorem c4_counterexample :
    (∃ res ∈ (runScript 2 (fun _ => true) (fun _ p _ => p != 1)).nodeResults,
      ∃ l, res = some l ∧ (1, (⟨3, false⟩ : UnitResult)) ∈ l) ∧
    (runScript 2 (fun _ => true) (fun _ p _ => p != 1)).exitStatus = 0 := by
  decide

/-- C4 (amended): a work unit whose 3 attempts all fail is reported as a
permanent failure with exactly 3 attempts; every sibling work unit of the
node still runs to completion (one result per parameter value, unaffected
by the failure); the node's sub-dispatcher exit status records at least
one failed unit; but the overall job exit status is always 0, because the
script ends with `wait` without operands, which discards child statuses. -/
theorem c4_retry_exhaustion (o : Nat → Nat → Bool) (ps : List Nat) (p : Nat)
    (hp : p ∈ ps) (hfail : ∀ k, k < 3 → o p k = false) :
    (p, (⟨3, false⟩ : UnitResult)) ∈ runNode o ps ∧
    (runNode o ps).length = ps.length ∧
    1 ≤ nodeExit o ps ∧
    ∀ nnodes startOk oc, (runScript nnodes startOk oc).exitStatus = 0 := by
  have h0 := hfail 0 (by omega)
  have h1 := hfail 1 (by omega)
  have h2 := hfail 2 (by omega)
  have hrun : runUnit (o p) parallelRetries = ⟨3, false⟩ := by
    simp [parallelRetries, runUnit, h0, h1, h2]
  have hmem : (p, (⟨3, false⟩ : UnitResult)) ∈ runNode o ps :=
    List.mem_map.mpr ⟨p, hp, by rw [hrun]⟩
  refine ⟨hmem, by simp [runNode], ?_, fun nnodes startOk oc => rfl⟩
  have : 0 < (runNode o ps).countP (fun r => !r.2.ok) :=
    List.countP_pos_iff.mpr ⟨(p, ⟨3, false⟩), hmem, rfl⟩
  exact this

/-- Witness for C4 (amended): 2 nodes, parameter 1 failing every attempt. -/
theorem c4_retry_exhaustion_witness :
    (1 ∈ List.range' 1 32) ∧
    (∀ k, k < 3 → (fun (p : Nat) (_ : Nat) => p != 1) 1 k = false) ∧
    ((1, (⟨3, false⟩ : UnitResult)) ∈
        runNode (fun p _ => p != 1) (List.range' 1 32) ∧
      (runNode (fun p _ => p != 1) (List.range' 1 32)).length =
        (List.range' 1 32).length ∧
      1 ≤ nodeExit (fun p _ => p != 1) (List.range' 1 32) ∧
      ∀ nnodes startOk oc, (runScript nnodes startOk oc).exitStatus = 0) :=
  ⟨by decide, by decide,
   c4_retry_exhaustion (fun p _ => p != 1) (List.range' 1 32) 1 (by decide) (by decide)⟩

/-- C5: the claim states that the script exits with a failure status when a
sub-dispatcher process cannot be started.  This is false at a concrete
input: with 2 nodes and the sub-dispatcher at CPU offset 32 failing to
start, the job records the missing node (`none`), yet the script's exit
status is 0. -/
theorem c5_counterexample :
    none ∈ (runScript 2 (fun c => c == 0) (fun _ _ _ => true)).nodeResults ∧
    (runScript 2 (fun c => c == 0) (fun _ _ _ => true)).exitStatus = 0 := by
  decide

/-- C5 (amended): the top-level script joins all sub-dispatchers: there is
one result slot per node, and every sub-dispatcher that does start runs
its full sweep regardless of any other node's failures (no early
cancellation); but the script's exit status is 0 even when a
sub-dispatcher cannot be started, because the trailing `wait` with no
operands always returns 0. -/
theorem c5_join_all (nnodes : Nat) (startOk : Nat → Bool)
    (o : Nat → Nat → Nat → Bool) :
    (runScript nnodes startOk o).nodeResults.length = nnodes ∧
    (∀ s ∈ dispatch nnodes, startOk s.cpuOffset = true →
      some (runNode (o s.cpuOffset) s.params) ∈
        (runScript nnodes startOk o).nodeResults) ∧
    (runScript nnodes startOk o).exitStatus = 0 := by
  refine ⟨by simp [runScript, dispatch], ?_, rfl⟩
  intro s hs hok
  exact List.mem_map.mpr ⟨s, hs, by simp [hok]⟩

/-- Witness for C5 (amended): node 0 starts, node 1 does not; node 0's
full result is nevertheless present. -/
theorem c5_join_all_witness :
    ((⟨0, List.range' 1 32⟩ : SubDispatch) ∈ dispatch 2) ∧
    ((fun c => c == 0) : Nat → Bool) 0 = true ∧
    some (runNode ((fun _ _ _ => true) 0) (List.range' 1 32)) ∈
      (runScript 2 (fun c => c == 0) (fun _ _ _ => true)).nodeResults :=
  ⟨by decide, by decide,
   (c5_join_all 2 (fun c => c == 0) (fun _ _ _ => true)).2.1
     ⟨0, List.range' 1 32⟩ (by decide) (by decide)⟩

/-- State of the admission controller: work units not yet started, and the
number of further steps before a new start is allowed. -/
structure AdmState where
  pending : Nat
  cooldown : Nat
deriving DecidableEq

/-- Modelled from the spec: the load-based admission control of the
external parallel tool (invoked by the script with `--load 100% --delay 5`),
which is not part of the repository's source.  At each time step the
controller observes the aggregate host load; a new work unit is started
only when units remain pending, the observed load does not exceed the
threshold, and at least `delay` steps have passed since the previous
start. -/
def admStep (threshold delay : Nat) (st : AdmState) (load : Nat) : AdmState × Bool :=
  if st.cooldown = 0 ∧ 0 < st.pending ∧ load ≤ threshold then
    (⟨st.pending - 1, delay - 1⟩, true)
  else
    (⟨st.pending, st.cooldown - 1⟩, false)

/-- Run the admission controller over a trace of load observations,
recording at each step whether a new work unit was started. -/
def admRun (threshold delay : Nat) (st : AdmState) : List Nat → List Bool
  | [] => []
  | l :: ls =>
    let step := admStep threshold delay st l
    step.2 :: admRun threshold delay step.1 ls

/-- A work unit is started at a step only if the load observed at that
step does not exceed the threshold. -/
lemma admRun_load_le (threshold delay : Nat) (loads : List Nat) :
    ∀ (st : AdmState) (t : Nat),
      (admRun threshold delay st loads).getD t false = true →
      loads.getD t (threshold + 1) ≤ threshold := by
  induction loads with
  | nil =>
    intro st t h
    simp [admRun] at h
  | cons l ls ih =>
    intro st t h
    match t with
    | 0 =>
      simp only [admRun, List.getD_cons_zero] at h
      unfold admStep at h
      split at h
      · next hc =>
        simpa [List.getD_cons_zero] using hc.2.2
      · simp at h
    | t + 1 =>
      simp only [admRun, List.getD_cons_succ] at h
      simpa [List.getD_cons_succ] using ih _ t h

/-- If a start happens at step `t`, the controller's cooldown at entry was
at most `t`. -/
lemma admRun_cooldown_le (threshold delay : Nat) (loads : List Nat) :
    ∀ (st : AdmState) (t : Nat),
      (admRun threshold delay st loads).getD t false = true →
      st.cooldown ≤ t := by
  induction loads with
  | nil =>
    intro st t h
    simp [admRun] at h
  | cons l ls ih =>
    intro st t h
    match t with
    | 0 =>
      simp only [admRun, List.getD_cons_zero] at h
      unfold admStep at h
      split at h
      · next hc => omega
      · simp at h
    | t + 1 =>
      simp only [admRun, List.getD_cons_succ] at h
      have := ih _ t h
      unfold admStep at this
      split at this <;> simp at this <;> omega

/-- Two starts are at least `delay` steps apart. -/
lemma admRun_spacing (threshold delay : Nat) (hd : 1 ≤ delay) (loads : List Nat) :
    ∀ (st : AdmState) (t₁ t₂ : Nat), t₁ < t₂ →
      (admRun threshold delay st loads).getD t₁ false = true →
      (admRun threshold delay st loads).getD t₂ false = true →
      t₁ + delay ≤ t₂ := by
  induction loads with
  | nil =>
    intro st t₁ t₂ _ h₁ _
    simp [admRun] at h₁
  | cons l ls ih =>
    intro st t₁ t₂ hlt h₁ h₂
    match t₁, t₂ with
    | 0, t₂ + 1 =>
      simp only [admRun, List.getD_cons_zero, List.getD_cons_succ] at h₁ h₂
      have hcool := admRun_cooldown_le threshold delay ls _ t₂ h₂
      unfold admStep at h₁ hcool
      split at h₁
      · next hc =>
        rw [if_pos hc] at hcool
        simp only [] at hcool
        omega
      · simp at h₁
    | t₁ + 1, t₂ + 1 =>
      simp only [admRun, List.getD_cons_succ] at h₁ h₂
      have := ih _ t₁ t₂ (by omega) h₁ h₂
      omega

/-- C7: with the script's flags (`--load 100%`, `--delay 5`), starting from
any number of pending units and no initial cooldown, the admission model
never starts a work unit at a step whose observed load exceeds 100, and
any two starts are at least 5 steps apart. -/
theorem c7_admission_control (loads : List Nat) (pending t : Nat)
    (h : (admRun parallelLoadThreshold parallelDelay ⟨pending, 0⟩ loads).getD t false
      = true) :
    loads.getD t (parallelLoadThreshold + 1) ≤ parallelLoadThreshold ∧
    ∀ t₂, t < t₂ →
      (admRun parallelLoadThreshold parallelDelay ⟨pending, 0⟩ loads).getD t₂ false
        = true →
      t + parallelDelay ≤ t₂ := by
  refine ⟨admRun_load_le _ _ loads _ t h, fun t₂ hlt h₂ => ?_⟩
  exact admRun_spacing parallelLoadThreshold parallelDelay (by decide) loads _ t t₂ hlt h h₂

/-- Witness for C7: a start at step 0 under load 50; load 200 at step 1
admits nothing, and the next start is at step 5, exactly `--delay 5`
later. -/
theorem c7_admission_control_witness :
    ((admRun parallelLoadThreshold parallelDelay ⟨2, 0⟩
        [50, 200, 50, 50, 50, 50]).getD 0 false = true) ∧
    ([50, 200, 50, 50, 50, 50].getD 0 (parallelLoadThreshold + 1)
        ≤ parallelLoadThreshold ∧
      ∀ t₂, 0 < t₂ →
        (admRun parallelLoadThreshold parallelDelay ⟨2, 0⟩
          [50, 200, 50, 50, 50, 50]).getD t₂ false = true →
        0 + parallelDelay ≤ t₂) :=
  ⟨by decide, c7_admission_control [50, 200, 50, 50, 50, 50] 2 0 (by decide)⟩

/-- State of one node's worker pool: parameter values not yet started,
currently running, and finished. -/
structure PoolState where
  pending : List Nat
  running : List Nat
  finished : List Nat
deriving DecidableEq

/-- Modelled from the spec: the bounded-concurrency executor of the
external parallel tool — one worker slot per CPU of the node, so at most
`cap` work units run at once.  A pending unit may start only when a slot
is free; a running unit may finish at any time. -/
inductive PoolStep (cap : Nat) : PoolState → PoolState → Prop
  | start (p : Nat) (rest running finished : List Nat) :
      running.length < cap →
      PoolStep cap ⟨p :: rest, running, finished⟩ ⟨rest, p :: running, finished⟩
  | finish (p : Nat) (pending r₁ r₂ finished : List Nat) :
      PoolStep cap ⟨pending, r₁ ++ p :: r₂, finished⟩ ⟨pending, r₁ ++ r₂, p :: finished⟩

/-- States reachable by the executor from the initial state in which the
whole parameter list is pending and nothing runs. -/
def PoolReachable (cap : Nat) (ps : List Nat) : PoolState → Prop :=
  Relation.ReflTransGen (PoolStep cap) ⟨ps, [], []⟩

/-- Each executor step preserves the concurrency bound. -/
lemma poolStep_running_le (cap : Nat) {s s' : PoolState} (h : PoolStep cap s s')
    (hs : s.running.length ≤ cap) : s'.running.length ≤ cap := by
  cases h with
  | start p rest running finished hlt =>
    simpa using hlt
  | finish p pending r₁ r₂ finished =>
    simp only [List.length_append, List.length_cons] at hs ⊢
    omega

/-- C8: with `N = 64` worker slots over `M = 2` nodes, each node's executor
has `NCPUS = N / M = 32` slots, and in every reachable state of a node's
sweep at most `NCPUS` work units run concurrently; moreover each node of
the 2-node dispatch has exactly one work unit per parameter value of its
sub-range. -/
theorem c8_bounded_concurrency (i : Nat) (s : PoolState)
    (h : PoolReachable NCPUS (PARAMF i) s) :
    s.running.length ≤ NCPUS ∧
    NCPUS = 64 / 2 ∧
    ∀ sub ∈ dispatch 2, ∀ v ∈ sub.params, sub.params.count v = 1 := by
  refine ⟨?_, by decide, by decide⟩
  induction h with
  | refl => simp
  | tail _ hstep ih => exact poolStep_running_le NCPUS hstep ih

/-- Witness for C8: after starting the work unit for parameter 1 on node
0, the reachable state runs one unit, within the 32-slot bound. -/
theorem c8_bounded_concurrency_witness :
    PoolReachable NCPUS (PARAMF 0)
      ⟨List.range' 2 31, [1], []⟩ ∧
    ((⟨List.range' 2 31, [1], []⟩ : PoolState).running.length ≤ NCPUS ∧
      NCPUS = 64 / 2 ∧
      ∀ sub ∈ dispatch 2, ∀ v ∈ sub.params, sub.params.count v = 1) := by
  have hstep : PoolStep NCPUS ⟨PARAMF 0, [], []⟩ ⟨List.range' 2 31, [1], []⟩ := by
    have hp : PARAMF 0 = 1 :: List.range' 2 31 := by decide
    rw [hp]
    exact PoolStep.start 1 (List.range' 2 31) [] [] (by decide)
  have hreach : PoolReachable NCPUS (PARAMF 0) ⟨List.range' 2 31, [1], []⟩ :=
    Relation.ReflTransGen.single hstep
  exact ⟨hreach, c8_bounded_concurrency 0 ⟨List.range' 2 31, [1], []⟩ hreach⟩

end SweepDispatch
